import Mathlib

set_option maxHeartbeats 1000000

/-! Verification development for the VisualSense asset-discovery and audit
pipeline.  The definitions below are shallow embeddings of the TypeScript
sources: the self-contained pipeline in src/index.tsx (namespace IndexTsx),
the variant pipeline in src/App.tsx (namespace AppTsx), and the service
module src/services/geminiService.ts (namespace GeminiService).  JavaScript
string primitives (split, trim, includes, startsWith, endsWith, toLowerCase)
are modelled over List Char; values parsed from the external analysis
response are modelled as structures with Option-valued fields, since the raw
response is unvalidated JSON; concurrent fetches are modelled as per-task
outcome values joined under an explicit completion order.  -/

/-- Space character, written through its code point. -/
def spaceChar : Char := Char.ofNat 32

/-- Comma character, written through its code point. -/
def commaChar : Char := Char.ofNat 44

/-- Boolean test that the first list is an initial segment of the second. -/
def leadsWith : List Char → List Char → Bool
  | [], _ => true
  | _ :: _, [] => false
  | p :: ps, s :: ss => p == s && leadsWith ps ss

/-- Model of the JavaScript startsWith method on strings. -/
def jsStartsWith (s pre : String) : Bool := leadsWith pre.data s.data

/-- Model of the JavaScript endsWith method on strings. -/
def jsEndsWith (s suf : String) : Bool := leadsWith suf.data.reverse s.data.reverse

/-- Occurrence test for substring search: the needle occurs at some position of
the haystack. -/
def hasSub (needle : List Char) : List Char → Bool
  | [] => needle.isEmpty
  | s :: ss => leadsWith needle (s :: ss) || hasSub needle ss

/-- Model of the JavaScript includes method on strings. -/
def strContains (s sub : String) : Bool := hasSub sub.data s.data

/-- Model of the JavaScript toLowerCase method, restricted to ASCII case
folding. -/
def jsToLower (s : String) : String := ⟨s.data.map Char.toLower⟩

/-- Model of the JavaScript split method on strings: split at every occurrence
of the separator; the result list is never empty. -/
def jsSplit (sep : Char) : List Char → List (List Char)
  | [] => [[]]
  | c :: rest =>
    let r := jsSplit sep rest
    if c = sep then [] :: r else (c :: r.headD []) :: r.tail

/-- Removal of trailing whitespace: a character is kept when something after
it survives or it is itself not whitespace. -/
def trimEnd : List Char → List Char
  | [] => []
  | c :: rest =>
    let r := trimEnd rest
    if r.isEmpty && c.isWhitespace then [] else c :: r

/-- Model of the JavaScript trim method: drop whitespace from both ends. -/
def jsTrim (l : List Char) : List Char :=
  trimEnd (l.dropWhile Char.isWhitespace)

/-- Everything before the first space, the JavaScript idiom of splitting at a
space and taking entry zero. -/
def firstTok (l : List Char) : List Char := l.takeWhile (fun c => c != spaceChar)

/-- JavaScript truthiness of a nullable string: null and the empty string are
falsy. -/
def truthy : Option String → Bool
  | none => false
  | some s => s != ""

/-- Model of the JavaScript or-else operator on nullable strings. -/
def jsOr (a b : Option String) : Option String := if truthy a then a else b

/-- Response delivered by the network-indirection capability for a binary
asset: status information, the delivered content type of the blob, and the
payload in its transport-safe base64 form (the FileReader data-URL encoding is
modelled as the base64 payload directly). -/
structure FetchResponse where
  ok : Bool
  status : Nat
  blobType : String
  bodyB64 : String
deriving DecidableEq

/-- Response delivered by the network-indirection capability for a markup
fetch. -/
structure HtmlResponse where
  ok : Bool
  status : Nat
  body : String
deriving DecidableEq

/-- One successfully fetched and encoded asset, the ImageAsset interface of
src/index.tsx. -/
structure ImageAsset where
  url : String
  base64 : String
  mimeType : String
deriving DecidableEq

/-- One url plus base64 pair as produced by the fetch loop of src/App.tsx and
consumed by analyzeProductPage in src/services/geminiService.ts. -/
structure AppImage where
  url : String
  base64 : String
deriving DecidableEq

/-- One inline binary part of the analysis request. -/
structure InlinePart where
  data : String
  mimeType : String
deriving DecidableEq

/-- One competitor record of the parsed analysis response.  Fields are
Option-valued because the parsed JSON is not validated by the code. -/
structure CompetitorInsight where
  name : Option String
  strengths : Option (List String)
  visualTakeaway : Option String
  marketPosition : Option String
deriving DecidableEq

/-- The page-level summary object of the parsed analysis response.  Fields are
Option-valued because the parsed JSON is not validated by the code; the value
with every field absent models the empty JSON object. -/
structure SiteSummary where
  brandConsistency : Option Int
  creativeStyle : Option String
  typographyNotes : Option String
  layoutAnalysis : Option String
  marketingActionables : Option (List String)
  overallAesthetic : Option String
  visualRoadmap : Option (List String)
  competitors : Option (List CompetitorInsight)
deriving DecidableEq

/-- One per-image record of the parsed analysis response, fields Option-valued
as above. -/
structure AIImage where
  id : Option String
  dominantColors : Option (List String)
  composition : Option String
  lighting : Option String
  mood : Option String
  aesthetic : Option String
  qualityScore : Option Int
  description : Option String
  howToImprove : Option String
deriving DecidableEq

/-- The top level of the parsed analysis response: either top-level field may
be absent. -/
structure ParsedResponse where
  images : Option (List AIImage)
  summary : Option SiteSummary
deriving DecidableEq

/-- The text delivered by the analysis capability, as seen after the JSON
parse attempt: no usable text at all, text that throws on JSON.parse (carrying
the exception message), or text that parses to a response object. -/
inductive RespText where
  | noText : RespText
  | unparseable (msg : String) : RespText
  | parsed (p : ParsedResponse) : RespText
deriving DecidableEq

/-- An analysis image record with every optional field absent, used as a
concrete value in the closed instances below. -/
def blankAI : AIImage :=
  { id := none, dominantColors := none, composition := none, lighting := none,
    mood := none, aesthetic := none, qualityScore := none, description := none,
    howToImprove := none }

namespace IndexTsx

/-- Selection of the last srcset entry URL, from handleAnalyze in
src/index.tsx: the attribute is split at commas, each part is trimmed and cut
at the first space, and the final part is taken. -/
def srcsetPick (srcset : String) : String :=
  ⟨((jsSplit commaChar srcset.data).map (fun p => firstTok (jsTrim p))).getLastD []⟩

/-- Candidate selection for one img element, from handleAnalyze in
src/index.tsx: the lazy-load data attributes take priority over src, and a
truthy srcset attribute overrides both with its last entry; a falsy final
value contributes no candidate. -/
def imgCandidate (src dataSrc1 dataSrc2 dataSrc3 srcset : Option String) : Option String :=
  let dataSrc := jsOr (jsOr dataSrc1 dataSrc2) dataSrc3
  let foundUrl := jsOr dataSrc src
  let chosen := if truthy srcset then some (srcsetPick (srcset.getD "")) else foundUrl
  if truthy chosen then chosen else none

/-- Scheme detection after the first character, for the model of the WHATWG
URL parser: alphanumeric characters and plus, minus, dot may precede the
colon. -/
def schemeTail : List Char → Bool
  | [] => false
  | c :: rest =>
    if c = ':' then true
    else if c.isAlphanum || c = '+' || c = '-' || c = '.' then schemeTail rest
    else false

/-- Scheme detection of the WHATWG URL parser: a leading alphabetic character
followed by scheme characters and a colon. -/
def hasScheme (u : String) : Bool :=
  match u.data with
  | [] => false
  | c :: rest => c.isAlpha && schemeTail rest

/-- Model of the browser call new URL(u, base).href where base is the page
origin, given as scheme and host.  References carrying their own scheme
resolve to themselves, protocol-relative references gain the base scheme,
root-relative references gain the base origin, and other references resolve
against the origin.  Normalisation (dot segments, case folding, default
ports) is omitted; the protocol-relative reference with nothing after the two
slashes does not parse and is returned as none, modelling the exception
thrown by the parser. -/
def resolveRef (scheme host u : String) : Option String :=
  if hasScheme u then some u
  else if jsStartsWith u "//" then
    (if u = "//" then none else some (scheme ++ ":" ++ u))
  else if jsStartsWith u "/" then some (scheme ++ "://" ++ host ++ u)
  else if u = "" then some (scheme ++ "://" ++ host ++ "/")
  else some (scheme ++ "://" ++ host ++ "/" ++ u)

/-- The strict SVG test of the resolver filter in src/index.tsx. -/
def isSvgUrl (u : String) : Bool :=
  let low := jsToLower u
  jsEndsWith low ".svg" || strContains low ".svg?" || strContains low "image/svg+xml" ||
    strContains low "data:image/svg+xml"

/-- The icon and logo naming heuristic of the resolver filter in
src/index.tsx. -/
def isIconLogo (u : String) : Bool :=
  let low := jsToLower u
  strContains low "icon" || strContains low "logo"

/-- The inclusion policy applied to each resolved URL in src/index.tsx. -/
def passesFilter (u : String) : Bool :=
  jsStartsWith u "http" && !isIconLogo u && !isSvgUrl u

/-- First-occurrence deduplication with an accumulator of already seen values,
modelling the iteration order of a JavaScript Set. -/
def dedupAux (seen : List String) : List String → List String
  | [] => []
  | x :: xs => if x ∈ seen then dedupAux seen xs else x :: dedupAux (x :: seen) xs

/-- Model of Array.from(new Set(candidates)) in src/index.tsx: the raw
candidate strings, first occurrences kept in order. -/
def setDedup (l : List String) : List String := dedupAux [] l

/-- Resolution and filtering of one raw candidate: the map step returning null
on a parse failure composed with the filter step of src/index.tsx. -/
def resolveStep (scheme host : String) (u : String) : Option String :=
  match resolveRef scheme host u with
  | none => none
  | some r => if passesFilter r then some r else none

/-- The resolved, filtered and truncated candidate list of handleAnalyze in
src/index.tsx: deduplicate the raw candidates, resolve each against the page
origin, drop parse failures, apply the inclusion policy and keep the first
four. -/
def resolvedUrls (cands : List String) (scheme host : String) : List String :=
  ((setDedup cands).filterMap (resolveStep scheme host)).take 4

/-- The supported content-type allow-list of fetchAssetAsBase64 in
src/index.tsx. -/
def supportedMimes : List String :=
  ["image/jpeg", "image/png", "image/webp", "image/heic", "image/heif", "image/avif"]

/-- Model of fetchAssetAsBase64 in src/index.tsx: none models transport
failure, a non-success status, and rejection of the delivered content type;
an accepted asset records its URL, payload and validated content type. -/
def fetchAssetAsBase64 (url : String) (outcome : Option FetchResponse) : Option ImageAsset :=
  match outcome with
  | none => none
  | some r =>
    if !r.ok then none
    else if strContains r.blobType "svg" || !(supportedMimes.contains r.blobType) then none
    else some { url := url, base64 := r.bodyB64, mimeType := r.blobType }

/-- Model of Promise.all settling: the tasks have the given per-task outcomes
and complete in the given order, each completion writing its result into its
own slot of the result array. -/
def promiseAllJoin (outcomes : List (Option ImageAsset)) (order : List Nat) :
    List (Option ImageAsset) :=
  order.foldl (fun acc i => acc.set i (outcomes.getD i none))
    (outcomes.map fun _ => none)

/-- Model of the fetch stage of handleAnalyze in src/index.tsx: join all
fetch tasks, keep the non-null results, and fail only when none survived. -/
def fetchAll (outcomes : List (Option ImageAsset)) (order : List Nat) :
    Except String (List ImageAsset) :=
  let validAssets := (promiseAllJoin outcomes order).filterMap id
  if validAssets.isEmpty then
    Except.error "Could not extract supported image data. SVGs were detected but are incompatible with the audit engine."
  else Except.ok validAssets

/-- Model of the inline image parts built in handleAnalyze of src/index.tsx:
each part carries the payload and the content type recorded for its asset. -/
def imageParts (assets : List ImageAsset) : List InlinePart :=
  assets.map fun a => { data := a.base64, mimeType := a.mimeType }

/-- One merged image record of the final result in src/index.tsx: the parsed
analysis fields together with the asset identity merged in by position. -/
structure MergedImage where
  id : Option String
  dominantColors : Option (List String)
  composition : Option String
  lighting : Option String
  mood : Option String
  aesthetic : Option String
  qualityScore : Option Int
  description : Option String
  howToImprove : Option String
  url : String
  base64 : Option String
  mimeType : Option String
deriving DecidableEq

/-- Merging of the analysis image at a given position with the fetched asset
at the same position, from src/index.tsx: the asset URL with an empty-string
default, and the optional payload and content type. -/
def mergeAt (assets : List ImageAsset) (idx : Nat) (a : AIImage) : MergedImage :=
  { id := a.id, dominantColors := a.dominantColors, composition := a.composition,
    lighting := a.lighting, mood := a.mood, aesthetic := a.aesthetic,
    qualityScore := a.qualityScore, description := a.description,
    howToImprove := a.howToImprove,
    url := (assets[idx]?.map ImageAsset.url).getD "",
    base64 := assets[idx]?.map ImageAsset.base64,
    mimeType := assets[idx]?.map ImageAsset.mimeType }

/-- The finalImages map of src/index.tsx: each parsed analysis image record,
in order, merged with the asset at its index. -/
def finalImages (assets : List ImageAsset) : Nat → List AIImage → List MergedImage
  | _, [] => []
  | i, a :: rest => mergeAt assets i a :: finalImages assets (i + 1) rest

/-- The final audit result assembled in src/index.tsx; the summary is the
unvalidated parsed value and may be absent. -/
structure AnalysisResult where
  url : String
  images : List MergedImage
  summary : Option SiteSummary
deriving DecidableEq

/-- Model of the response handling tail of handleAnalyze in src/index.tsx:
no usable text fails the audit, a parse exception propagates to the surrounding
catch, and a parsed response is merged positionally with the fetched assets. -/
def handleResponse (pageUrl : String) (assets : List ImageAsset) (resp : RespText) :
    Except String AnalysisResult :=
  match resp with
  | RespText.noText => Except.error "AI engine failure."
  | RespText.unparseable msg => Except.error msg
  | RespText.parsed p =>
      Except.ok { url := pageUrl, images := finalImages assets 0 (p.images.getD []),
                  summary := p.summary }

/-- Model of proxyFetchHtml in src/index.tsx: a non-success status raises one
fixed message without the status code; a transport error propagates as the
raw fetch failure. -/
def proxyFetchHtml (outcome : Option HtmlResponse) : Except String String :=
  match outcome with
  | none => Except.error "Failed to fetch"
  | some r =>
    if !r.ok then Except.error "Target site is unreachable or blocking the audit proxy."
    else Except.ok r.body

end IndexTsx

namespace GeminiService

/-- Model of the inline image parts built by analyzeProductPage in
src/services/geminiService.ts: every part is tagged image/jpeg regardless of
the content type the asset was actually delivered with. -/
def imageParts (images : List AppImage) : List InlinePart :=
  images.map fun img => { data := img.base64, mimeType := "image/jpeg" }

/-- One analyzed image record of the result of analyzeProductPage: the parsed
analysis fields together with the original URL merged in by position. -/
structure AnalyzedImage where
  id : Option String
  dominantColors : Option (List String)
  composition : Option String
  lighting : Option String
  mood : Option String
  aesthetic : Option String
  qualityScore : Option Int
  description : Option String
  howToImprove : Option String
  url : String
deriving DecidableEq

/-- Merging of the analysis image at a given position with the submitted
image at the same position, from src/services/geminiService.ts: the URL with
an empty-string default. -/
def analyzedAt (images : List AppImage) (idx : Nat) (a : AIImage) : AnalyzedImage :=
  { id := a.id, dominantColors := a.dominantColors, composition := a.composition,
    lighting := a.lighting, mood := a.mood, aesthetic := a.aesthetic,
    qualityScore := a.qualityScore, description := a.description,
    howToImprove := a.howToImprove,
    url := (images[idx]?.map AppImage.url).getD "" }

/-- The analyzedImages map of src/services/geminiService.ts: each parsed
analysis image record, in order, merged with the submitted image at its
index. -/
def analyzedImages (images : List AppImage) : Nat → List AIImage → List AnalyzedImage
  | _, [] => []
  | i, a :: rest => analyzedAt images i a :: analyzedImages images (i + 1) rest

/-- The summary value substituted for an absent summary field, modelling the
empty JSON object default of src/services/geminiService.ts. -/
def emptySummary : SiteSummary :=
  { brandConsistency := none, creativeStyle := none, typographyNotes := none,
    layoutAnalysis := none, marketingActionables := none, overallAesthetic := none,
    visualRoadmap := none, competitors := none }

/-- The result of analyzeProductPage in src/services/geminiService.ts. -/
structure AnalysisResult where
  url : String
  images : List AnalyzedImage
  summary : SiteSummary
deriving DecidableEq

/-- Assembly of the result of analyzeProductPage from a parsed response: an
absent images field defaults to the empty list and an absent summary field
defaults to the empty object. -/
def assemble (pageUrl : String) (images : List AppImage) (p : ParsedResponse) :
    AnalysisResult :=
  { url := pageUrl,
    images := analyzedImages images 0 (p.images.getD []),
    summary := p.summary.getD emptySummary }

/-- Model of the response handling of analyzeProductPage in
src/services/geminiService.ts: missing text is replaced by the text of the
empty JSON object, which parses to the response with both fields absent; a
parse exception is caught and rewrapped; a parsed response is assembled with
defaults. -/
def analyzeProductPage (pageUrl : String) (images : List AppImage) (resp : RespText) :
    Except String AnalysisResult :=
  match resp with
  | RespText.noText => Except.ok (assemble pageUrl images { images := none, summary := none })
  | RespText.unparseable msg => Except.error ("AI Analysis Error: " ++ msg)
  | RespText.parsed p => Except.ok (assemble pageUrl images p)

/-- The status-bearing throw inside the try block of proxyFetchHtml in
src/services/geminiService.ts. -/
def proxyFetchInner (r : HtmlResponse) : Except String String :=
  if !r.ok then Except.error ("Status " ++ toString r.status ++ ": Site is blocking the audit.")
  else Except.ok r.body

/-- Model of proxyFetchHtml in src/services/geminiService.ts: the try block
may throw the status-bearing error, and the surrounding catch replaces every
thrown error, transport failures and the status-bearing throw alike, by one
fixed status-free message. -/
def proxyFetchHtml (outcome : Option HtmlResponse) : Except String String :=
  match outcome with
  | none => Except.error "Connection Blocked: The target site may be blocking remote access."
  | some r =>
    match proxyFetchInner r with
    | Except.error _ =>
        Except.error "Connection Blocked: The target site may be blocking remote access."
    | Except.ok t => Except.ok t

/-- Model of imageToBase64 in src/services/geminiService.ts: no content-type
validation is performed; every successfully delivered payload is encoded and
returned whatever its type. -/
def imageToBase64 (outcome : Option FetchResponse) : Except String String :=
  match outcome with
  | none => Except.error "Failed to read image data."
  | some r =>
    if !r.ok then Except.error ("HTTP " ++ toString r.status)
    else Except.ok r.bodyB64

end GeminiService

namespace AppTsx

/-- Model of the per-candidate URL normalisation in handleAnalyze of
src/App.tsx: a protocol-relative reference always receives the https scheme,
then a root-relative reference receives the page origin. -/
def resolveCandidate (pageScheme pageHost : String) (t : String) : String :=
  let t1 := if jsStartsWith t "//" then "https:" ++ t else t
  if jsStartsWith t1 "/" && !jsStartsWith t1 "//" then
    pageScheme ++ "://" ++ pageHost ++ t1
  else t1

/-- Model of the encoding loop of handleAnalyze in src/App.tsx: each candidate
is fetched through imageToBase64 of the service module, a per-candidate
failure yields null, and the nulls are filtered out; no content-type
validation occurs on this path. -/
def base64Images (inputs : List (String × Option FetchResponse)) : List AppImage :=
  inputs.filterMap fun q =>
    match GeminiService.imageToBase64 q.2 with
    | Except.ok b => some { url := q.1, base64 := b }
    | Except.error _ => none

/-- The raster-extension test of the candidate filter in src/App.tsx: the
case-insensitive regular-expression match for a dot followed by one of the
raster extensions, modelled as substring tests on the lowered URL. -/
def isImgUrl (u : String) : Bool :=
  let low := jsToLower u
  strContains low ".jpg" || strContains low ".jpeg" || strContains low ".png" ||
    strContains low ".webp" || strContains low ".avif"

/-- The icon, logo and svg naming test of the candidate filter in
src/App.tsx. -/
def isNotIcon (u : String) : Bool :=
  let low := jsToLower u
  !strContains low "icon" && !strContains low "logo" && !strContains low "svg"

/-- Resolution and filtering of one img-element candidate in src/App.tsx
(lines 47 to 56): the per-element selected reference, when truthy, is
normalised by resolveCandidate and pushed only when it is an absolute web URL
with a raster extension and no icon, logo or svg marker. -/
def pushCandidate (pageScheme pageHost : String) (t : String) : Option String :=
  if t = "" then none
  else
    let r := resolveCandidate pageScheme pageHost t
    if jsStartsWith r "http" && isImgUrl r && isNotIcon r then some r else none

/-- The candidate accumulation of handleAnalyze in src/App.tsx (lines 31 to
58): a truthy og:image content is pushed raw, unresolved and unfiltered,
followed by the resolved and filtered img-element candidates; the input list
holds the per-element selected references after the source-set and lazy-load
selection. -/
def potentialImages (og : Option String) (pageScheme pageHost : String)
    (imgTargets : List String) : List String :=
  (if truthy og then [og.getD ""] else []) ++
    imgTargets.filterMap (pushCandidate pageScheme pageHost)

/-- The final candidate list of src/App.tsx line 60: the Set deduplicates the
accumulated candidate strings as they stand, in insertion order, and the
first five are kept. -/
def uniqueImages (og : Option String) (pageScheme pageHost : String)
    (imgTargets : List String) : List String :=
  (IndexTsx.setDedup (potentialImages og pageScheme pageHost imgTargets)).take 5

end AppTsx

/-- One rendered srcset entry: the URL, a space, then the descriptor. -/
def renderEntry (e : List Char × List Char) : List Char := e.1 ++ spaceChar :: e.2

/-- Rendering of a srcset attribute from URL and descriptor pairs, the entries
separated by a comma and a space. -/
def renderSrcset : List (List Char × List Char) → List Char
  | [] => []
  | [e] => renderEntry e
  | e :: rest => renderEntry e ++ commaChar :: spaceChar :: renderSrcset rest

/-- Well-formedness of a srcset entry: the URL is nonempty and neither the URL
nor the descriptor contains a comma or whitespace. -/
def WFentry (e : List Char × List Char) : Prop :=
  e.1 ≠ [] ∧ (∀ c ∈ e.1, c ≠ commaChar ∧ c.isWhitespace = false) ∧
    (∀ c ∈ e.2, c ≠ commaChar ∧ c.isWhitespace = false)

instance (e : List Char × List Char) : Decidable (WFentry e) := by
  unfold WFentry; exact inferInstance

/-! Helper lemmas about the embedded definitions. -/

theorem dedupAux_sublist (l : List String) :
    ∀ seen, List.Sublist (IndexTsx.dedupAux seen l) l := by
  induction l with
  | nil => intro seen; simp [IndexTsx.dedupAux]
  | cons x xs ih =>
    intro seen
    unfold IndexTsx.dedupAux
    by_cases h : x ∈ seen
    · simp only [h, if_true]
      exact (ih seen).trans (List.sublist_cons_self x xs)
    · simp only [h, if_false]
      exact List.Sublist.cons₂ x (ih (x :: seen))

theorem not_mem_seen_of_mem_dedupAux (l : List String) :
    ∀ seen y, y ∈ IndexTsx.dedupAux seen l → y ∉ seen := by
  induction l with
  | nil => intro seen y hy; simp [IndexTsx.dedupAux] at hy
  | cons x xs ih =>
    intro seen y hy
    unfold IndexTsx.dedupAux at hy
    by_cases h : x ∈ seen
    · simp only [h, if_true] at hy
      exact ih seen y hy
    · simp only [h, if_false] at hy
      rcases List.mem_cons.mp hy with rfl | hy2
      · exact h
      · intro hs
        exact ih (x :: seen) y hy2 (List.mem_cons_of_mem x hs)

theorem dedupAux_nodup (l : List String) :
    ∀ seen, (IndexTsx.dedupAux seen l).Nodup := by
  induction l with
  | nil => intro seen; simp [IndexTsx.dedupAux]
  | cons x xs ih =>
    intro seen
    unfold IndexTsx.dedupAux
    by_cases h : x ∈ seen
    · simp only [h, if_true]; exact ih seen
    · simp only [h, if_false]
      refine List.nodup_cons.mpr ⟨?_, ih (x :: seen)⟩
      intro hx
      exact not_mem_seen_of_mem_dedupAux xs (x :: seen) x hx (List.mem_cons_self x seen)

theorem setDedup_sublist (l : List String) : List.Sublist (IndexTsx.setDedup l) l :=
  dedupAux_sublist l []

theorem setDedup_nodup (l : List String) : (IndexTsx.setDedup l).Nodup :=
  dedupAux_nodup l []

theorem passes_of_mem_resolvedUrls {cands : List String} {scheme host u : String}
    (hu : u ∈ IndexTsx.resolvedUrls cands scheme host) :
    IndexTsx.passesFilter u = true := by
  have h1 : u ∈ (IndexTsx.setDedup cands).filterMap (IndexTsx.resolveStep scheme host) :=
    (List.take_sublist _ _).subset hu
  obtain ⟨v, hv, hstep⟩ := List.mem_filterMap.mp h1
  unfold IndexTsx.resolveStep at hstep
  cases hres : IndexTsx.resolveRef scheme host v with
  | none => rw [hres] at hstep; simp at hstep
  | some r =>
    rw [hres] at hstep
    by_cases hp : IndexTsx.passesFilter r
    · simp only [hp, if_true, Option.some.injEq] at hstep
      rw [← hstep]; exact hp
    · simp [hp] at hstep

theorem finalImages_getElem? (assets : List ImageAsset) (ai : List AIImage) :
    ∀ n i, (IndexTsx.finalImages assets n ai)[i]?
      = ai[i]?.map fun a => IndexTsx.mergeAt assets (n + i) a := by
  induction ai with
  | nil => intro n i; simp [IndexTsx.finalImages]
  | cons a rest ih =>
    intro n i
    cases i with
    | zero => simp [IndexTsx.finalImages]
    | succ j =>
      have harith : n + 1 + j = n + (j + 1) := by omega
      simp only [IndexTsx.finalImages, List.getElem?_cons_succ, ih (n + 1) j, harith]

theorem finalImages_length (assets : List ImageAsset) (ai : List AIImage) :
    ∀ n, (IndexTsx.finalImages assets n ai).length = ai.length := by
  induction ai with
  | nil => intro n; simp [IndexTsx.finalImages]
  | cons a rest ih => intro n; simp [IndexTsx.finalImages, ih (n + 1)]

theorem analyzedImages_length (images : List AppImage) (ai : List AIImage) :
    ∀ n, (GeminiService.analyzedImages images n ai).length = ai.length := by
  induction ai with
  | nil => intro n; simp [GeminiService.analyzedImages]
  | cons a rest ih => intro n; simp [GeminiService.analyzedImages, ih (n + 1)]

theorem foldlSet_getElem? (outcomes : List (Option ImageAsset)) :
    ∀ (order : List Nat) (acc : List (Option ImageAsset)), acc.length = outcomes.length →
    ∀ j, (order.foldl (fun l i => l.set i (outcomes.getD i none)) acc)[j]?
      = if j ∈ order ∧ j < outcomes.length then some (outcomes.getD j none)
        else acc[j]? := by
  intro order
  induction order with
  | nil =>
    intro acc hlen j
    simp
  | cons i rest ih =>
    intro acc hlen j
    rw [List.foldl_cons, ih _ (by simp [hlen]) j]
    by_cases hjr : j ∈ rest ∧ j < outcomes.length
    · have hc : j ∈ i :: rest ∧ j < outcomes.length :=
        ⟨List.mem_cons_of_mem _ hjr.1, hjr.2⟩
      simp [hjr, hc]
    · rw [if_neg hjr, List.getElem?_set]
      by_cases hij : i = j
      · subst hij
        rw [if_pos rfl, hlen]
        by_cases hlt : i < outcomes.length
        · rw [if_pos hlt,
            if_pos (⟨List.mem_cons_self i rest, hlt⟩ : i ∈ i :: rest ∧ i < outcomes.length)]
        · rw [if_neg hlt,
            if_neg (by tauto : ¬(i ∈ i :: rest ∧ i < outcomes.length)),
            List.getElem?_eq_none (by omega)]
      · rw [if_neg hij]
        have hc : ¬(j ∈ i :: rest ∧ j < outcomes.length) := by
          rintro ⟨hm, hlt⟩
          rcases List.mem_cons.mp hm with rfl | hmr
          · exact hij rfl
          · exact hjr ⟨hmr, hlt⟩
        rw [if_neg hc]

theorem promiseAllJoin_eq (outcomes : List (Option ImageAsset)) (order : List Nat)
    (hord : List.Perm order (List.range outcomes.length)) :
    IndexTsx.promiseAllJoin outcomes order = outcomes := by
  apply List.ext_getElem?
  intro j
  unfold IndexTsx.promiseAllJoin
  rw [foldlSet_getElem? outcomes order _ (by simp) j]
  have hmem : j ∈ order ↔ j < outcomes.length := by
    rw [hord.mem_iff, List.mem_range]
  by_cases hlt : j < outcomes.length
  · rw [if_pos ⟨hmem.mpr hlt, hlt⟩, List.getElem?_eq_getElem hlt,
      List.getD_eq_getElem?_getD, List.getElem?_eq_getElem hlt]
    rfl
  · rw [if_neg (by tauto), List.getElem?_map,
      List.getElem?_eq_none (by omega : outcomes.length ≤ j)]
    rfl

/-! Claim theorems, witnesses and counterexamples. -/

/-- C2: the asset fetcher joins all concurrent fetches back to input order, so
for every completion order that settles each task exactly the per-task
outcomes are recovered in input order, the surviving assets are exactly the
successes as an order-preserving subsequence of the input, and the stage
succeeds whenever at least one candidate succeeded, so the failure of a single
candidate among successes never fails the overall operation. -/
theorem c2_fetch_order (outcomes : List (Option ImageAsset)) (order : List Nat)
    (hord : List.Perm order (List.range outcomes.length)) :
    IndexTsx.promiseAllJoin outcomes order = outcomes
    ∧ (IndexTsx.promiseAllJoin outcomes order).filterMap id = outcomes.filterMap id
    ∧ (outcomes.filterMap id ≠ [] →
        IndexTsx.fetchAll outcomes order = Except.ok (outcomes.filterMap id)) := by
  have h1 := promiseAllJoin_eq outcomes order hord
  refine ⟨h1, by rw [h1], ?_⟩
  intro hne
  have hemp : (outcomes.filterMap id).isEmpty = false := by
    cases hemp : (outcomes.filterMap id).isEmpty with
    | false => rfl
    | true => exact absurd (List.isEmpty_iff.mp hemp) hne
  simp only [IndexTsx.fetchAll, h1, hemp]
  rfl

theorem c2_fetch_order_witness :
    IndexTsx.promiseAllJoin
        [some { url := "https://h/a.jpg", base64 := "AAA", mimeType := "image/jpeg" }, none,
         some { url := "https://h/c.png", base64 := "CCC", mimeType := "image/png" }] [2, 0, 1]
      = [some { url := "https://h/a.jpg", base64 := "AAA", mimeType := "image/jpeg" }, none,
         some { url := "https://h/c.png", base64 := "CCC", mimeType := "image/png" }]
    ∧ IndexTsx.fetchAll
        [some { url := "https://h/a.jpg", base64 := "AAA", mimeType := "image/jpeg" }, none,
         some { url := "https://h/c.png", base64 := "CCC", mimeType := "image/png" }] [2, 0, 1]
      = Except.ok [{ url := "https://h/a.jpg", base64 := "AAA", mimeType := "image/jpeg" },
         { url := "https://h/c.png", base64 := "CCC", mimeType := "image/png" }] := by
  have h := c2_fetch_order
    [some { url := "https://h/a.jpg", base64 := "AAA", mimeType := "image/jpeg" }, none,
     some { url := "https://h/c.png", base64 := "CCC", mimeType := "image/png" }] [2, 0, 1]
    (by decide)
  exact ⟨h.1, h.2.2 (by decide)⟩

/-- C3: the result reconciler pairs the analysis image record at position i
with the fetched asset at position i, the record inheriting that asset's URL,
payload and content type, while a record at a position beyond the asset count
receives the empty URL and absent payload, and every record position in range
yields a defined record. -/
theorem c3_positional_merge (assets : List ImageAsset) (ai : List AIImage) (i : Nat)
    (hi : i < ai.length) :
    (∀ a : ImageAsset, assets[i]? = some a →
      ∃ m, (IndexTsx.finalImages assets 0 ai)[i]? = some m ∧
        m.url = a.url ∧ m.base64 = some a.base64 ∧ m.mimeType = some a.mimeType)
    ∧ (assets.length ≤ i →
      ∃ m, (IndexTsx.finalImages assets 0 ai)[i]? = some m ∧
        m.url = "" ∧ m.base64 = none ∧ m.mimeType = none) := by
  obtain ⟨aimg, haimg⟩ : ∃ x, ai[i]? = some x := ⟨_, List.getElem?_eq_getElem hi⟩
  have hget := finalImages_getElem? assets ai 0 i
  rw [haimg] at hget
  simp only [Nat.zero_add, Option.map_some'] at hget
  constructor
  · intro a ha
    refine ⟨IndexTsx.mergeAt assets i aimg, hget, ?_, ?_, ?_⟩ <;>
      simp [IndexTsx.mergeAt, ha]
  · intro hle
    have ha : assets[i]? = none := List.getElem?_eq_none hle
    refine ⟨IndexTsx.mergeAt assets i aimg, hget, ?_, ?_, ?_⟩ <;>
      simp [IndexTsx.mergeAt, ha]

theorem c3_positional_merge_witness :
    (∃ m, (IndexTsx.finalImages
        [{ url := "https://h/a.jpg", base64 := "A1", mimeType := "image/jpeg" },
         { url := "https://h/b.png", base64 := "B2", mimeType := "image/png" }] 0
        [blankAI, blankAI, blankAI])[1]? = some m ∧
      m.url = "https://h/b.png" ∧ m.base64 = some "B2" ∧ m.mimeType = some "image/png")
    ∧ (∃ m, (IndexTsx.finalImages
        [{ url := "https://h/a.jpg", base64 := "A1", mimeType := "image/jpeg" },
         { url := "https://h/b.png", base64 := "B2", mimeType := "image/png" }] 0
        [blankAI, blankAI, blankAI])[2]? = some m ∧
      m.url = "" ∧ m.base64 = none ∧ m.mimeType = none) := by
  constructor
  · exact (c3_positional_merge
      [{ url := "https://h/a.jpg", base64 := "A1", mimeType := "image/jpeg" },
       { url := "https://h/b.png", base64 := "B2", mimeType := "image/png" }]
      [blankAI, blankAI, blankAI] 1 (by decide)).1
      { url := "https://h/b.png", base64 := "B2", mimeType := "image/png" } rfl
  · exact (c3_positional_merge
      [{ url := "https://h/a.jpg", base64 := "A1", mimeType := "image/jpeg" },
       { url := "https://h/b.png", base64 := "B2", mimeType := "image/png" }]
      [blankAI, blankAI, blankAI] 2 (by decide)).2 (by decide)

/-- C4 as amended: a parsed analysis response whose top-level summary field is
absent is not rejected; the invoker of src/services/geminiService.ts succeeds
and silently substitutes the empty summary object for the missing field. -/
theorem c4_missing_summary_defaulted (pageUrl : String) (images : List AppImage)
    (p : ParsedResponse) (h : p.summary = none) :
    GeminiService.analyzeProductPage pageUrl images (RespText.parsed p)
      = Except.ok (GeminiService.assemble pageUrl images p)
    ∧ (GeminiService.assemble pageUrl images p).summary = GeminiService.emptySummary := by
  refine ⟨rfl, ?_⟩
  simp [GeminiService.assemble, h]

theorem c4_missing_summary_defaulted_witness :
    GeminiService.analyzeProductPage "https://shop.example" []
        (RespText.parsed { images := some [blankAI], summary := none })
      = Except.ok (GeminiService.assemble "https://shop.example" []
          { images := some [blankAI], summary := none })
    ∧ (GeminiService.assemble "https://shop.example" []
        { images := some [blankAI], summary := none }).summary
      = GeminiService.emptySummary :=
  c4_missing_summary_defaulted "https://shop.example" []
    { images := some [blankAI], summary := none } rfl

theorem c4_counterexample :
    GeminiService.analyzeProductPage "https://shop.example" []
        (RespText.parsed { images := some [], summary := none })
      = Except.ok { url := "https://shop.example", images := [],
                    summary := GeminiService.emptySummary } := rfl

/-- C5 as amended: on a response with no usable text the pipeline of
src/index.tsx fails with the engine-failure message, while the invoker of
src/services/geminiService.ts instead substitutes the empty JSON object text
and returns a defaulted result without failing. -/
theorem c5_no_text_outcomes (pageUrl : String) (assets : List ImageAsset)
    (images : List AppImage) :
    IndexTsx.handleResponse pageUrl assets RespText.noText
      = Except.error "AI engine failure."
    ∧ GeminiService.analyzeProductPage pageUrl images RespText.noText
      = Except.ok (GeminiService.assemble pageUrl images
          { images := none, summary := none }) :=
  ⟨rfl, rfl⟩

theorem c5_counterexample :
    GeminiService.analyzeProductPage "https://shop.example"
        [{ url := "https://h/a.jpg", base64 := "AAA" }] RespText.noText
      = Except.ok { url := "https://shop.example", images := [],
                    summary := GeminiService.emptySummary } := rfl

/-- C9: when the indirection capability reports a non-success status, the
status-bearing error raised inside the try block of proxyFetchHtml in
src/services/geminiService.ts is swallowed by its own catch and the caller
receives a fixed status-free message, whatever the status was; the variant in
src/index.tsx likewise surfaces a fixed status-free message. -/
theorem c9_status_code_dropped (status : Nat) (body : String) :
    GeminiService.proxyFetchInner { ok := false, status := status, body := body }
      = Except.error ("Status " ++ toString status ++ ": Site is blocking the audit.")
    ∧ GeminiService.proxyFetchHtml (some { ok := false, status := status, body := body })
      = Except.error "Connection Blocked: The target site may be blocking remote access."
    ∧ IndexTsx.proxyFetchHtml (some { ok := false, status := status, body := body })
      = Except.error "Target site is unreachable or blocking the audit proxy." :=
  ⟨rfl, rfl, rfl⟩

/-- C10: the images list of the assembled audit result has exactly as many
records as the parsed analysis images array, in both pipeline variants, so
surplus fetched assets beyond the analysis record count are omitted. -/
theorem c10_images_length (assets : List ImageAsset) (ai : List AIImage)
    (images : List AppImage) (ai2 : List AIImage) :
    (IndexTsx.finalImages assets 0 ai).length = ai.length
    ∧ (GeminiService.analyzedImages images 0 ai2).length = ai2.length :=
  ⟨finalImages_length assets ai 0, analyzedImages_length images ai2 0⟩

theorem data_of_jsStartsWith_slash {u : String} (h : jsStartsWith u "/" = true) :
    ∃ rest, u.data = '/' :: rest := by
  unfold jsStartsWith at h
  rw [show ("/" : String).data = ['/'] from rfl] at h
  cases hu : u.data with
  | nil => rw [hu] at h; simp [leadsWith] at h
  | cons c rest =>
    rw [hu] at h
    simp [leadsWith] at h
    exact ⟨rest, by rw [← h]⟩

theorem data_of_jsStartsWith_2slash {u : String} (h : jsStartsWith u "//" = true) :
    ∃ rest, u.data = '/' :: '/' :: rest := by
  unfold jsStartsWith at h
  rw [show ("//" : String).data = ['/', '/'] from rfl] at h
  cases hu : u.data with
  | nil => rw [hu] at h; simp [leadsWith] at h
  | cons c tail =>
    rw [hu] at h
    cases tail with
    | nil => simp [leadsWith] at h
    | cons c2 rest =>
      simp [leadsWith] at h
      exact ⟨rest, by rw [← h.1, ← h.2]⟩

theorem hasScheme_eq_false_of_slash {u : String} (h : jsStartsWith u "/" = true) :
    IndexTsx.hasScheme u = false := by
  obtain ⟨rest, hu⟩ := data_of_jsStartsWith_slash h
  unfold IndexTsx.hasScheme
  rw [hu]
  have hslash : ('/' : Char).isAlpha = false := by decide
  simp [hslash]

theorem jsStartsWith_slash_of_2slash {u : String} (h : jsStartsWith u "//" = true) :
    jsStartsWith u "/" = true := by
  obtain ⟨rest, hu⟩ := data_of_jsStartsWith_2slash h
  unfold jsStartsWith
  rw [show ("/" : String).data = ['/'] from rfl, hu]
  simp [leadsWith]

/-- C1 as amended: in the src/index.tsx resolver every entry of the resolved
candidate list passes the inclusion filter, so no entry is an SVG or an icon
or logo pattern match and every entry is an absolute web URL, and entries stem
from distinct raw reference strings kept in first-occurrence order and
truncated order-preservingly, though deduplication precedes resolution there,
so two entries may share one absolute URL string; in the src/App.tsx variant
the Set deduplicates the final candidate strings, so no two entries are equal
as strings, and every entry either passes that variant's resolve-and-filter
step for img-element candidates or is the raw og:image reference, which
enters the list unresolved and unfiltered. -/
theorem c1_resolver_invariants (cands : List String) (scheme host u : String)
    (hu : u ∈ IndexTsx.resolvedUrls cands scheme host)
    (og : Option String) (targets : List String) (v : String)
    (hv : v ∈ AppTsx.uniqueImages og scheme host targets) :
    ((IndexTsx.isSvgUrl u = false ∧ IndexTsx.isIconLogo u = false
      ∧ jsStartsWith u "http" = true)
    ∧ (IndexTsx.setDedup cands).Nodup
    ∧ List.Sublist (IndexTsx.setDedup cands) cands
    ∧ List.Sublist (IndexTsx.resolvedUrls cands scheme host)
        ((IndexTsx.setDedup cands).filterMap (IndexTsx.resolveStep scheme host)))
    ∧ ((AppTsx.uniqueImages og scheme host targets).Nodup
    ∧ ((truthy og = true ∧ v = og.getD "")
        ∨ (jsStartsWith v "http" = true ∧ AppTsx.isImgUrl v = true
            ∧ AppTsx.isNotIcon v = true))) := by
  have hp := passes_of_mem_resolvedUrls hu
  unfold IndexTsx.passesFilter at hp
  rcases Bool.and_eq_true_iff.mp hp with ⟨h12, h3⟩
  rcases Bool.and_eq_true_iff.mp h12 with ⟨h1, h2⟩
  refine ⟨⟨⟨?_, ?_, h1⟩, setDedup_nodup cands, setDedup_sublist cands,
      List.take_sublist _ _⟩, ?_, ?_⟩
  · cases hsvg : IndexTsx.isSvgUrl u with
    | false => rfl
    | true => rw [hsvg] at h3; simp at h3
  · cases hil : IndexTsx.isIconLogo u with
    | false => rfl
    | true => rw [hil] at h2; simp at h2
  · exact (List.take_sublist _ _).nodup (setDedup_nodup _)
  · have hvp : v ∈ AppTsx.potentialImages og scheme host targets :=
      (setDedup_sublist _).subset ((List.take_sublist _ _).subset hv)
    rcases List.mem_append.mp hvp with hog | himg
    · left
      cases htr : truthy og with
      | false => rw [htr] at hog; simp at hog
      | true =>
        rw [htr] at hog
        simp only [if_true, List.mem_singleton] at hog
        exact ⟨rfl, hog⟩
    · right
      obtain ⟨t, ht, heq⟩ := List.mem_filterMap.mp himg
      unfold AppTsx.pushCandidate at heq
      by_cases hte : t = ""
      · simp [hte] at heq
      · rw [if_neg hte] at heq
        by_cases hfil : (jsStartsWith (AppTsx.resolveCandidate scheme host t) "http"
            && AppTsx.isImgUrl (AppTsx.resolveCandidate scheme host t)
            && AppTsx.isNotIcon (AppTsx.resolveCandidate scheme host t)) = true
        · rw [if_pos hfil] at heq
          rcases Option.some.inj heq with rfl
          rcases Bool.and_eq_true_iff.mp hfil with ⟨ha12, ha3⟩
          rcases Bool.and_eq_true_iff.mp ha12 with ⟨ha1, ha2⟩
          exact ⟨ha1, ha2, ha3⟩
        · rw [if_neg hfil] at heq
          exact absurd heq (by simp)

theorem c1_resolver_invariants_witness :
    ((IndexTsx.isSvgUrl "https://h/a.jpg" = false
      ∧ IndexTsx.isIconLogo "https://h/a.jpg" = false
      ∧ jsStartsWith "https://h/a.jpg" "http" = true)
    ∧ (IndexTsx.setDedup ["https://h/a.jpg", "/b.png"]).Nodup
    ∧ List.Sublist (IndexTsx.setDedup ["https://h/a.jpg", "/b.png"])
        ["https://h/a.jpg", "/b.png"]
    ∧ List.Sublist (IndexTsx.resolvedUrls ["https://h/a.jpg", "/b.png"] "https" "h")
        ((IndexTsx.setDedup ["https://h/a.jpg", "/b.png"]).filterMap
          (IndexTsx.resolveStep "https" "h")))
    ∧ ((AppTsx.uniqueImages none "https" "h" ["/b.png"]).Nodup
    ∧ ((truthy none = true ∧ "https://h/b.png" = (none : Option String).getD "")
        ∨ (jsStartsWith "https://h/b.png" "http" = true
            ∧ AppTsx.isImgUrl "https://h/b.png" = true
            ∧ AppTsx.isNotIcon "https://h/b.png" = true))) :=
  c1_resolver_invariants ["https://h/a.jpg", "/b.png"] "https" "h" "https://h/a.jpg"
    (by decide) none ["/b.png"] "https://h/b.png" (by decide)

theorem c1_counterexample :
    IndexTsx.resolvedUrls ["/a.jpg", "https://h/a.jpg"] "https" "h"
      = ["https://h/a.jpg", "https://h/a.jpg"]
    ∧ ¬(IndexTsx.resolvedUrls ["/a.jpg", "https://h/a.jpg"] "https" "h").Nodup
    ∧ AppTsx.uniqueImages (some "https://h/logo.svg") "https" "h" []
      = ["https://h/logo.svg"]
    ∧ AppTsx.isNotIcon "https://h/logo.svg" = false
    ∧ IndexTsx.isSvgUrl "https://h/logo.svg" = true
    ∧ IndexTsx.isIconLogo "https://h/logo.svg" = true :=
  ⟨by decide, by decide, by decide, by decide, by decide, by decide⟩

/-- C6 as amended: in the src/index.tsx pipeline every asset surviving the
fetch stage carries a content type drawn from the fixed raster allow-list and
free of the svg marker, validated at fetch time, and each inline part of the
analysis request is tagged with exactly that validated content type; the
src/App.tsx plus geminiService.ts variant instead performs no fetch-time type
validation and tags every part image/jpeg. -/
theorem c6_mime_validation (inputs : List (String × Option FetchResponse)) (a : ImageAsset)
    (ha : a ∈ inputs.filterMap (fun q => IndexTsx.fetchAssetAsBase64 q.1 q.2)) (i : Nat) :
    IndexTsx.supportedMimes.contains a.mimeType = true
    ∧ strContains a.mimeType "svg" = false
    ∧ (IndexTsx.imageParts (inputs.filterMap fun q => IndexTsx.fetchAssetAsBase64 q.1 q.2))[i]?
      = ((inputs.filterMap fun q => IndexTsx.fetchAssetAsBase64 q.1 q.2)[i]?).map
          (fun x => { data := x.base64, mimeType := x.mimeType }) := by
  obtain ⟨q, hq, heq⟩ := List.mem_filterMap.mp ha
  obtain ⟨url, outcome⟩ := q
  cases outcome with
  | none => simp [IndexTsx.fetchAssetAsBase64] at heq
  | some r =>
    cases hok : r.ok with
    | false => simp [IndexTsx.fetchAssetAsBase64, hok] at heq
    | true =>
      cases hsvg : strContains r.blobType "svg" with
      | true => simp [IndexTsx.fetchAssetAsBase64, hok, hsvg] at heq
      | false =>
        simp [IndexTsx.fetchAssetAsBase64, hok, hsvg] at heq
        obtain ⟨hmem2, hrec⟩ := heq
        rw [← hrec]
        exact ⟨List.elem_eq_true_of_mem hmem2, hsvg, List.getElem?_map _ _ _⟩

theorem c6_mime_validation_witness :
    IndexTsx.supportedMimes.contains
        (ImageAsset.mk "https://h/a.png" "AAA" "image/png").mimeType = true
    ∧ strContains (ImageAsset.mk "https://h/a.png" "AAA" "image/png").mimeType "svg" = false
    ∧ (IndexTsx.imageParts
        ([("https://h/a.png", some (FetchResponse.mk true 200 "image/png" "AAA"))].filterMap
          fun q => IndexTsx.fetchAssetAsBase64 q.1 q.2))[0]?
      = (([("https://h/a.png", some (FetchResponse.mk true 200 "image/png" "AAA"))].filterMap
          fun q => IndexTsx.fetchAssetAsBase64 q.1 q.2)[0]?).map
          (fun x => { data := x.base64, mimeType := x.mimeType }) :=
  c6_mime_validation [("https://h/a.png", some (FetchResponse.mk true 200 "image/png" "AAA"))]
    (ImageAsset.mk "https://h/a.png" "AAA" "image/png") (by decide) 0

theorem c6_counterexample :
    AppTsx.base64Images
        [("https://h/a.png", some (FetchResponse.mk true 200 "image/png" "PNGDATA"))]
      = [{ url := "https://h/a.png", base64 := "PNGDATA" }]
    ∧ GeminiService.imageParts
        (AppTsx.base64Images
          [("https://h/a.png", some (FetchResponse.mk true 200 "image/png" "PNGDATA"))])
      = [{ data := "PNGDATA", mimeType := "image/jpeg" }]
    ∧ ("image/jpeg" : String) ≠ "image/png"
    ∧ GeminiService.imageToBase64 (some (FetchResponse.mk true 200 "image/svg+xml" "SVGDATA"))
      = Except.ok "SVGDATA" :=
  ⟨rfl, rfl, by decide, rfl⟩

/-- C8 as amended: in the src/index.tsx resolver a protocol-relative reference
resolves to an absolute URL carrying the page scheme, a root-relative
reference resolves to an absolute URL carrying the page origin, and a
reference that fails to parse is dropped silently, never appearing in the
resolved candidate list; the src/App.tsx variant instead hardcodes the https
scheme for protocol-relative references. -/
theorem c8_reference_resolution (scheme host u : String) :
    (jsStartsWith u "//" = true → u ≠ "//" →
      IndexTsx.resolveRef scheme host u = some (scheme ++ ":" ++ u))
    ∧ (jsStartsWith u "/" = true → jsStartsWith u "//" = false →
      IndexTsx.resolveRef scheme host u = some (scheme ++ "://" ++ host ++ u))
    ∧ (IndexTsx.resolveRef scheme host u = none →
      ∀ cands, u ∉ IndexTsx.resolvedUrls cands scheme host) := by
  refine ⟨?_, ?_, ?_⟩
  · intro h2 hne
    have hs : IndexTsx.hasScheme u = false :=
      hasScheme_eq_false_of_slash (jsStartsWith_slash_of_2slash h2)
    simp [IndexTsx.resolveRef, hs, h2, hne]
  · intro h1 h2
    have hs : IndexTsx.hasScheme u = false := hasScheme_eq_false_of_slash h1
    simp [IndexTsx.resolveRef, hs, h1, h2]
  · intro hnone cands hmem
    have hp := passes_of_mem_resolvedUrls hmem
    have hu : u = "//" := by
      unfold IndexTsx.resolveRef at hnone
      by_cases hs : IndexTsx.hasScheme u = true
      · simp [hs] at hnone
      · by_cases h2 : jsStartsWith u "//" = true
        · by_cases heq : u = "//"
          · exact heq
          · simp [hs, h2, heq] at hnone
        · by_cases h1 : jsStartsWith u "/" = true
          · simp [hs, h2, h1] at hnone
          · by_cases hemp : u = ""
            · rw [hemp] at hnone
              simp [show IndexTsx.hasScheme "" = false from rfl,
                show jsStartsWith "" "//" = false from rfl,
                show jsStartsWith "" "/" = false from rfl] at hnone
            · simp [hs, h2, h1, hemp] at hnone
    subst hu
    exact absurd hp (by decide)

theorem c8_reference_resolution_witness :
    IndexTsx.resolveRef "http" "shop.example" "//cdn.example.com/a.jpg"
      = some ("http" ++ ":" ++ "//cdn.example.com/a.jpg")
    ∧ IndexTsx.resolveRef "http" "shop.example" "/img/b.png"
      = some ("http" ++ "://" ++ "shop.example" ++ "/img/b.png")
    ∧ "//" ∉ IndexTsx.resolvedUrls ["//"] "http" "shop.example" := by
  refine ⟨?_, ?_, ?_⟩
  · exact (c8_reference_resolution "http" "shop.example" "//cdn.example.com/a.jpg").1
      (by decide) (by decide)
  · exact (c8_reference_resolution "http" "shop.example" "/img/b.png").2.1
      (by decide) (by decide)
  · exact (c8_reference_resolution "http" "shop.example" "//").2.2 (by decide) ["//"]

theorem c8_counterexample :
    AppTsx.resolveCandidate "http" "shop.example" "//cdn.example.com/a.jpg"
      = "https://cdn.example.com/a.jpg"
    ∧ AppTsx.resolveCandidate "http" "shop.example" "//cdn.example.com/a.jpg"
      ≠ "http://cdn.example.com/a.jpg" :=
  ⟨by decide, by decide⟩

theorem jsSplit_ne_nil (sep : Char) (l : List Char) : jsSplit sep l ≠ [] := by
  induction l with
  | nil => simp [jsSplit]
  | cons c rest ih =>
    by_cases h : c = sep <;> simp [jsSplit, h]

theorem jsSplit_of_not_mem (sep : Char) (l : List Char) (h : sep ∉ l) :
    jsSplit sep l = [l] := by
  induction l with
  | nil => simp [jsSplit]
  | cons c rest ih =>
    have hc : c ≠ sep := fun hh => h (hh ▸ List.mem_cons_self c rest)
    have hr : sep ∉ rest := fun hh => h (List.mem_cons_of_mem c hh)
    simp [jsSplit, hc, ih hr]

theorem jsSplit_append (sep : Char) (xs ys : List Char) (h : sep ∉ xs) :
    jsSplit sep (xs ++ sep :: ys) = xs :: jsSplit sep ys := by
  induction xs with
  | nil => simp [jsSplit]
  | cons c rest ih =>
    have hc : c ≠ sep := fun hh => h (hh ▸ List.mem_cons_self c rest)
    have hr : sep ∉ rest := fun hh => h (List.mem_cons_of_mem c hh)
    simp only [List.cons_append]
    simp [jsSplit, hc, ih hr]

theorem trimEnd_append_ws (l : List Char) (c : Char) (hc : c.isWhitespace = true) :
    trimEnd (l ++ [c]) = trimEnd l := by
  induction l with
  | nil => simp [trimEnd, hc]
  | cons a t ih => simp [trimEnd, ih]

theorem trimEnd_eq_self {l : List Char}
    (h : ∀ c, l.getLast? = some c → c.isWhitespace = false) : trimEnd l = l := by
  induction l with
  | nil => rfl
  | cons c rest ih =>
    cases rest with
    | nil =>
      have hc := h c rfl
      simp [trimEnd, hc]
    | cons c2 t =>
      have hr : trimEnd (c2 :: t) = c2 :: t := by
        apply ih
        intro x hx
        apply h x
        rw [List.getLast?_cons_cons]
        exact hx
      rw [show trimEnd (c :: c2 :: t)
          = if (trimEnd (c2 :: t)).isEmpty && c.isWhitespace then []
            else c :: trimEnd (c2 :: t) from rfl]
      rw [hr]
      simp

theorem bne_space_of_not_ws {c : Char} (h : c.isWhitespace = false) :
    (c != spaceChar) = true := by
  have hne : c ≠ spaceChar := by
    intro he
    rw [he] at h
    exact absurd h (by decide)
  exact bne_iff_ne.mpr hne

theorem firstTok_eq_self (u : List Char) (h : ∀ c ∈ u, c.isWhitespace = false) :
    firstTok u = u := by
  induction u with
  | nil => rfl
  | cons c t ih =>
    have hc := bne_space_of_not_ws (h c (List.mem_cons_self c t))
    unfold firstTok at *
    simp only [List.takeWhile_cons, hc, if_true]
    rw [ih fun x hx => h x (List.mem_cons_of_mem c hx)]

theorem firstTok_append_space (u d : List Char) (h : ∀ c ∈ u, c.isWhitespace = false) :
    firstTok (u ++ spaceChar :: d) = u := by
  induction u with
  | nil =>
    unfold firstTok
    simp [List.takeWhile_cons]
  | cons c t ih =>
    have hc := bne_space_of_not_ws (h c (List.mem_cons_self c t))
    unfold firstTok at *
    simp only [List.cons_append, List.takeWhile_cons, hc, if_true]
    rw [ih fun x hx => h x (List.mem_cons_of_mem c hx)]

theorem firstTok_jsTrim_entry (u d : List Char) (hu : u ≠ [])
    (huc : ∀ c ∈ u, c.isWhitespace = false)
    (hdc : ∀ c ∈ d, c.isWhitespace = false) :
    firstTok (jsTrim (u ++ spaceChar :: d)) = u := by
  have hdrop : (u ++ spaceChar :: d).dropWhile Char.isWhitespace = u ++ spaceChar :: d := by
    cases u with
    | nil => exact absurd rfl hu
    | cons c0 u' =>
      simp [List.dropWhile_cons, huc c0 (List.mem_cons_self c0 u')]
  unfold jsTrim
  rw [hdrop]
  cases d with
  | nil =>
    rw [show u ++ [spaceChar] = u ++ [spaceChar] from rfl,
      trimEnd_append_ws u spaceChar (by decide)]
    rw [trimEnd_eq_self fun c hc => huc c (List.mem_of_mem_getLast? hc)]
    exact firstTok_eq_self u huc
  | cons e d' =>
    have hlast : ∀ c, (u ++ spaceChar :: e :: d').getLast? = some c →
        c.isWhitespace = false := by
      intro c hc
      rw [List.getLast?_append_of_ne_nil u (by simp), List.getLast?_cons_cons] at hc
      exact hdc c (List.mem_of_mem_getLast? (Option.mem_def.mpr hc))
    rw [trimEnd_eq_self hlast]
    exact firstTok_append_space u (e :: d') huc

theorem map_tok_jsSplit_space (l : List Char) :
    (jsSplit commaChar (spaceChar :: l)).map (fun p => firstTok (jsTrim p))
      = (jsSplit commaChar l).map (fun p => firstTok (jsTrim p)) := by
  have hsp : spaceChar ≠ commaChar := by decide
  cases hsplit : jsSplit commaChar l with
  | nil => exact absurd hsplit (jsSplit_ne_nil commaChar l)
  | cons h t =>
    rw [show jsSplit commaChar (spaceChar :: l) = (spaceChar :: h) :: t from by
      simp [jsSplit, hsp, hsplit]]
    simp only [List.map_cons]
    have hhead : firstTok (jsTrim (spaceChar :: h)) = firstTok (jsTrim h) := by
      unfold jsTrim
      rw [List.dropWhile_cons, if_pos (by decide : spaceChar.isWhitespace = true)]
    rw [hhead]

theorem jsSplit_renderSrcset (entries : List (List Char × List Char)) (hne : entries ≠ [])
    (hwf : ∀ e ∈ entries, WFentry e) :
    (jsSplit commaChar (renderSrcset entries)).map (fun p => firstTok (jsTrim p))
      = entries.map Prod.fst := by
  induction entries with
  | nil => exact absurd rfl hne
  | cons e rest ih =>
    obtain ⟨hu, huc, hdc⟩ := hwf e (List.mem_cons_self e rest)
    have hnc : commaChar ∉ renderEntry e := by
      intro hmem
      unfold renderEntry at hmem
      rcases List.mem_append.mp hmem with hx | hx
      · exact (huc _ hx).1 rfl
      · rcases List.mem_cons.mp hx with hx | hx
        · exact absurd hx (by decide)
        · exact (hdc _ hx).1 rfl
    cases rest with
    | nil =>
      rw [show renderSrcset [e] = renderEntry e from rfl,
        jsSplit_of_not_mem commaChar (renderEntry e) hnc]
      simp only [List.map_cons, List.map_nil]
      rw [show renderEntry e = e.1 ++ spaceChar :: e.2 from rfl,
        firstTok_jsTrim_entry e.1 e.2 hu (fun c hc => (huc c hc).2)
          (fun c hc => (hdc c hc).2)]
    | cons e2 rest2 =>
      rw [show renderSrcset (e :: e2 :: rest2)
          = renderEntry e ++ commaChar :: (spaceChar :: renderSrcset (e2 :: rest2)) from rfl,
        jsSplit_append commaChar _ _ hnc]
      rw [List.map_cons]
      rw [show renderEntry e = e.1 ++ spaceChar :: e.2 from rfl,
        firstTok_jsTrim_entry e.1 e.2 hu (fun c hc => (huc c hc).2)
          (fun c hc => (hdc c hc).2)]
      rw [map_tok_jsSplit_space,
        ih (by simp) (fun x hx => hwf x (List.mem_cons_of_mem e hx))]
      rfl

theorem getLastD_map_fst (entries : List (List Char × List Char)) :
    ∀ d : List Char × List Char,
      (entries.map Prod.fst).getLastD d.1 = (entries.getLastD d).1 := by
  induction entries with
  | nil => intro d; rfl
  | cons e rest ih =>
    intro d
    simp only [List.map_cons, List.getLastD_cons]
    exact ih e

/-- C7: for every well-formed source-set attribute, rendered from its
comma-separated entries, the extractor of src/index.tsx selects the URL of the
last listed entry, and a truthy source-set attribute on an image element makes
the selection independent of the src and lazy-load data attributes, overriding
them. -/
theorem c7_srcset_last_override (entries : List (List Char × List Char))
    (hne : entries ≠ []) (hwf : ∀ e ∈ entries, WFentry e)
    (src d1 d2 d3 : Option String) (s : String) (hs : s ≠ "") :
    IndexTsx.srcsetPick ⟨renderSrcset entries⟩ = ⟨(entries.getLastD ([], [])).1⟩
    ∧ IndexTsx.imgCandidate src d1 d2 d3 (some s)
      = IndexTsx.imgCandidate none none none none (some s) := by
  constructor
  · unfold IndexTsx.srcsetPick
    rw [show (⟨renderSrcset entries⟩ : String).data = renderSrcset entries from rfl]
    rw [jsSplit_renderSrcset entries hne hwf]
    exact congrArg (fun l => (⟨l⟩ : String)) (getLastD_map_fst entries ([], []))
  · have htr : truthy (some s) = true := by
      unfold truthy
      exact bne_iff_ne.mpr hs
    simp [IndexTsx.imgCandidate, htr]

theorem c7_srcset_last_override_witness :
    (IndexTsx.srcsetPick
        ⟨renderSrcset [("a.jpg".data, "100w".data), ("b.jpg".data, "800w".data)]⟩
      = ⟨([("a.jpg".data, "100w".data), ("b.jpg".data, "800w".data)].getLastD ([], [])).1⟩
    ∧ IndexTsx.imgCandidate (some "x.jpg") (some "y.jpg") none none
        (some "a.jpg 100w, b.jpg 800w")
      = IndexTsx.imgCandidate none none none none (some "a.jpg 100w, b.jpg 800w"))
    ∧ IndexTsx.srcsetPick "a.jpg 100w, b.jpg 800w" = "b.jpg" :=
  ⟨c7_srcset_last_override [("a.jpg".data, "100w".data), ("b.jpg".data, "800w".data)]
      (by decide) (by decide) (some "x.jpg") (some "y.jpg") none none
      "a.jpg 100w, b.jpg 800w" (by decide),
    by decide⟩
